import Mathlib

/-!
Verification development for the org-schema cache
(`cumulusci/utils/org_schema.py`).

The Python module is shallowly embedded: Python dicts become association
lists over a small `Value` type, the SQLAlchemy-backed store becomes a
per-table list of rows, and the module's functions (`zip_database`,
`Schema.__getitem__`, `Schema.block_writing`, `Schema.last_modified_date`,
`create_row` / `populate_cache`, `BufferedSession`, and the load/recovery
path of `get_org_schema`) become Lean functions over those states.
`email.utils.parsedate` is an external-library collaborator; it is modelled
as a parameter `p : String → D` into a linearly ordered type `D` of parsed
dates (the theorems therefore speak about timestamps that parse).
-/

namespace OrgSchema

/-- Scalar values appearing in the rows the module writes: strings, ints,
Python `None`, and the empty list `[]` that `populate_cache` assigns to
`actionOverrides`. -/
inductive Value where
  | str (s : String)
  | int (n : Int)
  | null
  | emptyList
deriving DecidableEq

/-- A Python dict as an association list (keys in insertion order). -/
abbrev Row := List (String × Value)

/-- Dict lookup: the value at key `k`, if present (`d[k]` / `d.get(k)`). -/
def dictGet? (d : Row) (k : String) : Option Value :=
  List.lookup k d

/-- Dict assignment `d[k] = v`: replace the value in place if the key is
present, otherwise append the new binding. -/
def dictSet (d : Row) (k : String) (v : Value) : Row :=
  if d.any (fun kv => kv.1 == k) then
    d.map (fun kv => if kv.1 == k then (k, v) else kv)
  else
    d ++ [(k, v)]

/-- The keys of a dict. -/
def dictKeys (d : Row) : List String := d.map (·.1)

/-- Python `{**a, **b}`: start from `a` and assign every binding of `b`. -/
def dictMerge (a b : Row) : Row :=
  b.foldl (fun acc kv => dictSet acc kv.1 kv.2) a

/-! ## BufferedSession

`BufferedSession(engine, metadata, max_buffer_size=1000)` buffers rows per
table and batch-inserts them on `flush`. The reflected table metadata is a
list of `(table name, declared column names)` pairs; the state is the
per-table buffer together with the per-table contents of the backing
database. -/

/-- Reflected table metadata: table name with its declared column names
(`metadata.tables` / `model.columns.keys()`). -/
abbrev Tables := List (String × List String)

/-- State of a `BufferedSession` over its engine: the in-memory per-table
row buffers and the rows already inserted in the backing database. -/
structure BSState where
  buffered : String → List Row
  store : String → List Row

/-- Point update of a per-table map. -/
def updT (f : String → List Row) (t : String) (v : List Row) :
    String → List Row :=
  fun x => if x = t then v else f x

/-- A session over an empty database with empty buffers. -/
def emptyBS : BSState := ⟨fun _ => [], fun _ => []⟩

/-- `self.columns[tablename]`: `{colname: None for colname in model.columns.keys()}`. -/
def colDefaults (cols : List String) : Row :=
  cols.map (fun c => (c, Value.null))

/-- `row = {**self.columns[tablename], **row}` (first line of
`write_single_row`): give every declared column an explicit value. -/
def normalizeRow (cols : List String) (row : Row) : Row :=
  dictMerge (colDefaults cols) row

/-- Find a table and its columns in the reflected metadata. -/
def findTable (tables : Tables) (t : String) : Option (String × List String) :=
  tables.find? (fun p => p.1 == t)

/-- `BufferedSession.flush`: one batched insert per non-empty table buffer,
then clear that buffer. -/
def flush (tables : Tables) (s : BSState) : BSState :=
  tables.foldl
    (fun st p =>
      if (st.buffered p.1).isEmpty then st
      else
        { buffered := updT st.buffered p.1 []
          store := updT st.store p.1 (st.store p.1 ++ st.buffered p.1) })
    s

/-- `BufferedSession.write_single_row`: normalize the row, append it to the
table's buffer, and flush once the buffer exceeds `max_buffer_size`.
Returns `none` when the table is not declared (`self.columns[tablename]`
raises `KeyError` in the source). -/
def write_single_row (tables : Tables) (maxBufferSize : Nat)
    (tablename : String) (row : Row) (s : BSState) : Option BSState :=
  match findTable tables tablename with
  | none => none
  | some p =>
    let row := normalizeRow p.2 row
    let s : BSState :=
      { s with buffered := updT s.buffered tablename (s.buffered tablename ++ [row]) }
    if (s.buffered tablename).length > maxBufferSize then some (flush tables s)
    else some s

/-- `BufferedSession.close` (via `commit`): flush the remaining buffers and
commit; committing does not change the table contents. -/
def closeSession (tables : Tables) (s : BSState) : BSState := flush tables s

/-- Constructing a `BufferedSession` (`_prepare` runs
`assert self.metadata.tables`, so empty metadata fails). -/
def initBufferedSession (tables : Tables) : Option BSState :=
  if tables.isEmpty then none else some emptyBS

/-- Run a sequence of `write_single_row` calls on a fresh session. -/
def runWrites (tables : Tables) (maxBufferSize : Nat)
    (writes : List (String × Row)) : Option BSState :=
  (initBufferedSession tables).bind fun s0 =>
    writes.foldlM (fun s w => write_single_row tables maxBufferSize w.1 w.2 s) s0

/-- The rows a table holds counting both flushed and still-buffered ones. -/
def contents (s : BSState) (t : String) : List Row :=
  s.store t ++ s.buffered t

/-- The rows the spec expects a table to hold after `close()`: every row
written to that table, normalized, in write order. -/
def writtenRows (tables : Tables) (writes : List (String × Row)) (t : String) :
    List Row :=
  (writes.filter (fun w => w.1 == t)).map
    (fun w => normalizeRow (((findTable tables t).map (·.2)).getD []) w.2)


/-! ## Timestamps and the watermark loop of `populate_cache`

The loop keeps `max_last_modified`, a pair `(parsedate(ts), ts)`, seeded
with the previous watermark, and updates it with Python tuple comparison
`sortable > max_last_modified`. -/

/-- The pair `(parsedate(last_modified), last_modified)` the loop calls
`sortable`; `p` stands for `email.utils.parsedate`. -/
def sortKey {D : Type} (p : String → D) (ts : String) : D × String :=
  (p ts, ts)

/-- Python tuple comparison `a > b` on `(parsed, raw)` pairs: first by the
parsed date, ties broken by the raw string. -/
def tsGtB {D : Type} [LinearOrder D] (a b : D × String) : Bool :=
  decide (b.1 < a.1) || (decide (b.1 = a.1) && decide (b.2 < a.2))

/-- Strict lexicographic order on `(parsed, raw)` pairs (the `Prop` form of
the comparison). -/
def tsLt {D : Type} [LinearOrder D] (a b : D × String) : Prop :=
  a.1 < b.1 ∨ (a.1 = b.1 ∧ a.2 < b.2)

/-- The loop body `if sortable > max_last_modified: max_last_modified = sortable`. -/
def updateMax {D : Type} [LinearOrder D] (p : String → D) (acc : D × String)
    (ts : String) : D × String :=
  if tsGtB (sortKey p ts) acc then sortKey p ts else acc

/-- The symmetric maximum of two `(parsed, raw)` pairs (used by the
claim-side watermark definitions). -/
def maxPair {D : Type} [LinearOrder D] (a b : D × String) : D × String :=
  if tsGtB b a then b else a

/-! ## `populate_cache` -/

/-- A changed-entity describe result as consumed by `populate_cache`: the
payload dict holds a `fields` list of field dicts plus the remaining
attributes; `sobj_data.pop("fields")` recovers exactly these two parts, so
the payload is modelled as the pair. -/
structure SObjData where
  attrs : Row
  fields : List Row
deriving DecidableEq

/-- `sobj_data` after `sobj_data.pop("fields")` and
`sobj_data["actionOverrides"] = []`. -/
def sobjAttrs (d : SObjData) : Row :=
  dictSet d.attrs "actionOverrides" Value.emptyList

/-- A field dict after `field["sobject"] = sobj_data["name"]`. (A payload
without a `"name"` key would raise `KeyError` in the source; the embedding
uses a `null` default there, and theorems about field rows assume the key
is present.) -/
def fieldRow (attrs : Row) (f : Row) : Row :=
  dictSet f "sobject" ((dictGet? attrs "name").getD Value.null)

/-- One iteration of the `for (sobj_data, last_modified) in full_sobjs`
loop: write the entity row, then per field write the field row and update
the running maximum (the source updates the maximum inside the field
loop). -/
def populateStep {D : Type} [LinearOrder D] (p : String → D) (tables : Tables)
    (acc : BSState × (D × String)) (e : SObjData × String) :
    Option (BSState × (D × String)) :=
  (write_single_row tables 1000 "sobjects" (sobjAttrs e.1) acc.1).bind fun s1 =>
    e.1.fields.foldlM
      (fun (a : BSState × (D × String)) f =>
        (write_single_row tables 1000 "fields" (fieldRow (sobjAttrs e.1) f) a.1).map
          fun s2 => (s2, updateMax p a.2 e.2))
      (s1, acc.2)

/-- `populate_cache(schema, sf, last_modified_date)`: run the entity loop
over the already-listed describe results, then write the `Last-Modified`
and `FormatVersion` rows into `file_metadata` and close the buffered
session (the trailing `vacuum` does not change contents). `store0` is the
content of the working database the engine is bound to. -/
def populate_cache {D : Type} [LinearOrder D] (p : String → D)
    (tables : Tables) (last_modified : String)
    (payloads : List (SObjData × String)) (store0 : String → List Row) :
    Option BSState :=
  if tables.isEmpty then none
  else
    (payloads.foldlM (populateStep p tables)
        ((⟨fun _ => [], store0⟩ : BSState), sortKey p last_modified)).bind
      fun se =>
        (write_single_row tables 1000 "file_metadata"
            [("name", Value.str "Last-Modified"), ("value", Value.str se.2.2)]
            se.1).bind
          fun s1 =>
            (write_single_row tables 1000 "file_metadata"
                [("name", Value.str "FormatVersion"), ("value", Value.int 1)]
                s1).map
              fun s2 => closeSession tables s2

/-- The watermark value the loop computes, as a pure fold: seeded with the
previous watermark, updated once per field of each entity. -/
def populateMax {D : Type} [LinearOrder D] (p : String → D) (prev : String)
    (payloads : List (SObjData × String)) : D × String :=
  payloads.foldl
    (fun a e => e.1.fields.foldl (fun a2 _ => updateMax p a2 e.2) a)
    (sortKey p prev)

/-- The sequence of `(table, row)` writes the entity loop performs. -/
def populateWrites : List (SObjData × String) → List (String × Row)
  | [] => []
  | e :: rest =>
    ("sobjects", sobjAttrs e.1) ::
      (e.1.fields.map (fun f => ("fields", fieldRow (sobjAttrs e.1) f)) ++
        populateWrites rest)

/-- The two bookkeeping writes at the end of `populate_cache`. -/
def metaRows (wm : String) : List (String × Row) :=
  [("file_metadata", [("name", Value.str "Last-Modified"), ("value", Value.str wm)]),
   ("file_metadata", [("name", Value.str "FormatVersion"), ("value", Value.int 1)])]

/-- Claim-side definition (the claim's words): the timestamp-wise maximum
of the previous watermark and the timestamps of all fetched entities,
including entities whose field list is empty. -/
def specWatermarkAll {D : Type} [LinearOrder D] (p : String → D)
    (prev : String) (payloads : List (SObjData × String)) : String :=
  ((payloads.map (fun e => sortKey p e.2)).foldl maxPair (sortKey p prev)).2

/-- Amended claim-side definition: the timestamp-wise maximum of the
previous watermark and the timestamps of the fetched entities that have at
least one field. -/
def specWatermarkChanged {D : Type} [LinearOrder D] (p : String → D)
    (prev : String) (payloads : List (SObjData × String)) : String :=
  (((payloads.filter (fun e => !e.1.fields.isEmpty)).map
      (fun e => sortKey p e.2)).foldl maxPair (sortKey p prev)).2

/-- The number of rows of a table whose `name` column holds `n`. -/
def countNamed (rows : List Row) (n : String) : Nat :=
  rows.countP (fun r => dictGet? r "name" == some (Value.str n))

/-! ## The read-only `Schema` API -/

/-- Failures of the single-row queries: `NoResultFound` is translated to a
`KeyError` by `__getitem__`; `MultipleResultsFound` always propagates. -/
inductive LookupErr where
  | notFound (msg : String)
  | multipleResults
deriving DecidableEq

/-- `Schema.__getitem__`: `query(SObject).filter_by(name=name).one()`;
`NoResultFound` becomes `KeyError(f"No sobject named {name}")`, and a
result set of two or more raises `MultipleResultsFound`. -/
def getitem (sobjectRows : List Row) (name : String) : Except LookupErr Row :=
  match sobjectRows.filter (fun r => dictGet? r "name" == some (Value.str name)) with
  | [r] => Except.ok r
  | [] => Except.error (LookupErr.notFound ("No sobject named " ++ name))
  | _ => Except.error LookupErr.multipleResults

/-- The rows the `Schema.last_modified_date` query selects. -/
def lastModifiedRows (metadataRows : List Row) : List Row :=
  metadataRows.filter
    (fun r => dictGet? r "name" == some (Value.str "Last-Modified"))

/-- `Schema.last_modified_date`: `.one().value`, with `NoResultFound`
caught (the property then stays `None`); two or more rows raise
`MultipleResultsFound`, which is not caught. -/
def last_modified_date (metadataRows : List Row) :
    Except LookupErr (Option Value) :=
  match lastModifiedRows metadataRows with
  | [r] => Except.ok (dictGet? r "value")
  | [] => Except.ok none
  | _ => Except.error LookupErr.multipleResults

/-! ## `Schema.block_writing` -/

/-- The SQLAlchemy session a `Schema` owns: the store rows (as
`(table, row)` pairs) plus whether `block_writing` has replaced
`session.commit` with the raising `closed` closure. -/
structure DbSession where
  rows : List (String × Row)
  commitBlocked : Bool
deriving DecidableEq

/-- `Schema.block_writing`: replace `self.session.commit` by `closed`.
Nothing else about the session changes. -/
def block_writing (s : DbSession) : DbSession :=
  { s with commitBlocked := true }

/-- `session.commit()` — after `block_writing` it is the `closed` closure,
which raises `IOError("Database is not open for writing")`. -/
def commitSession (s : DbSession) : Except String DbSession :=
  if s.commitBlocked then Except.error "Database is not open for writing"
  else Except.ok s

/-- `session.execute(insert_statement, ...)` — a write entry point that
`block_writing` does not replace. -/
def executeInsert (t : String) (r : Row) (s : DbSession) :
    Except String DbSession :=
  Except.ok { s with rows := s.rows ++ [(t, r)] }

/-- The rows of one table as seen by session queries. -/
def tableRows (s : DbSession) (t : String) : List Row :=
  s.rows.filterMap (fun w => if w.1 == t then some w.2 else none)

/-- `schema[name]` served from the session. -/
def sessionGetitem (s : DbSession) (name : String) : Except LookupErr Row :=
  getitem (tableRows s "sobjects") name

/-- `Schema.keys()`: the `name` column of every sobject row. -/
def schemaKeys (s : DbSession) : List (Option Value) :=
  (tableRows s "sobjects").map (fun r => dictGet? r "name")

/-! ## `zip_database` -/

/-- The operations `zip_database` performs on the persistent artifact
file. -/
inductive FileOp where
  | openTrunc
  | writeBytes (bs : List Nat)
deriving DecidableEq

/-- File-system semantics of one operation on the artifact path: opening
with mode `"wb"` truncates the file in place; a write appends bytes. -/
def runFileOp (st : Option (List Nat)) : FileOp → Option (List Nat)
  | FileOp.openTrunc => some []
  | FileOp.writeBytes bs => some (st.getD [] ++ bs)

/-- `zip_database(tempfile, schema_path)` as its sequence of operations on
the artifact path: `schema_path.open("wb")` truncates, then the gzip
stream writes the compressed copy of the working database bytes `db`
(`gz` models the gzip encoding). -/
def zip_database (gz : List Nat → List Nat) (db : List Nat) : List FileOp :=
  [FileOp.openTrunc, FileOp.writeBytes (gz db)]

/-- Every state of the artifact during a run of the operations: the
initial state followed by the state after each operation; dropping the
last entry gives the states at which an interruption can strand the
file. -/
def fileStates (ops : List FileOp) (init : Option (List Nat)) :
    List (Option (List Nat)) :=
  ops.scanl runFileOp init

/-! ## The cached-load branch of `get_org_schema` -/

/-- The failure points of the cached-artifact load attempt
(lines 220-238). -/
inductive LoadFailure where
  | decompress
  | openStore
  | liveness
deriving DecidableEq

/-- Persistent-artifact and scratch-file state after the `except` branch
has run the registered `cleanups_on_failure` in reverse. Nothing is
registered before `unzip_database` returns, so a decompression failure
deletes nothing (and `unzip_database` has already opened the scratch file
with mode `"wb"`, leaving it empty); later failures have
`[schema_path.unlink, tempfile.unlink]` (plus `schema.close`) registered,
so artifact and scratch file are unlinked. -/
def loadFailState (f : LoadFailure) (artifactBytes : List Nat) :
    Option (List Nat) × Option (List Nat) :=
  match f with
  | LoadFailure.decompress => (some artifactBytes, some [])
  | LoadFailure.openStore => (none, none)
  | LoadFailure.liveness => (none, none)

/-- The module-level epoch constant `y2k`. -/
def y2k : String := "Sat, 1 Jan 2000 00:00:01 GMT"

/-- Result of a refresh cycle: the final persistent artifact bytes, the
frozen working store, and the `from_cache` mark. -/
structure GosResult where
  artifact : List Nat
  store : String → List Row
  from_cache : Bool

/-- The rest of `get_org_schema` after a failed cached load (lines
240-257): the `except` branch caught the failure (it is not re-raised), a
fresh empty store is initialized at the scratch path (the leftover empty
scratch file of a decompression failure opens as an empty database), the
fresh store has no `Last-Modified` row so `populate_cache` runs with the
`y2k` watermark, and the result is frozen and recompressed over the
artifact path. `ser` models SQLite's serialization of the store into the
scratch file's bytes. -/
def get_org_schema_after_load_failure {D : Type} [LinearOrder D]
    (p : String → D) (tables : Tables) (gz : List Nat → List Nat)
    (ser : List (String × List Row) → List Nat)
    (payloads : List (SObjData × String)) (f : LoadFailure)
    (artifactBytes : List Nat) :
    (Option (List Nat) × Option (List Nat)) × Option GosResult :=
  (loadFailState f artifactBytes,
   (populate_cache p tables y2k payloads (fun _ => [])).map fun s =>
     { artifact := gz (ser (tables.map (fun t => (t.1, s.store t.1))))
       store := s.store
       from_cache := false })

/-! ## Concrete example inputs for witnesses and counterexamples -/

/-- A stand-in for `parsedate` on the toy timestamps of the examples: the
parsed date of a raw timestamp string is its length (so `"Z" < "BB"` in
parsed order although `"Z" > "BB"` lexically). -/
def pLen : String → Nat := String.length

/-- Example reflected metadata of the three tables. -/
def tablesEx : Tables :=
  [("sobjects", ["name", "actionOverrides", "label"]),
   ("fields", ["name", "sobject"]),
   ("file_metadata", ["name", "value"])]

/-- A fetched entity whose field list is empty, with a timestamp newer
than the previous watermark. -/
def fieldlessPayload : List (SObjData × String) :=
  [(⟨[("name", Value.str "Void")], []⟩, "BB")]

/-- A store seeded from a prior snapshot that already holds an `Account`
entity row. -/
def seededAccount : String → List Row :=
  fun t =>
    if t = "sobjects" then
      [[("name", Value.str "Account"), ("actionOverrides", Value.null),
        ("label", Value.null)]]
    else []

/-- A refresh payload reporting `Account` as changed again. -/
def accountChangedPayload : List (SObjData × String) :=
  [(⟨[("name", Value.str "Account"), ("label", Value.str "Acct")],
     [[("name", Value.str "Id")]]⟩, "CCC")]

/-- A session with one sobject row, not yet frozen. -/
def session0 : DbSession :=
  { rows := [("sobjects", [("name", Value.str "Account")])]
    commitBlocked := false }

/-- A refresh payload whose remote dict carries `actionOverrides` data. -/
def overridesPayload : List (SObjData × String) :=
  [(⟨[("name", Value.str "Case"), ("actionOverrides", Value.str "remote-data")],
     [[("name", Value.str "Id")]]⟩, "BB")]

/-- Two changed entities arriving newest-first. -/
def outOfOrderPayload : List (SObjData × String) :=
  [(⟨[("name", Value.str "A1")], [[("name", Value.str "F1")]]⟩, "DDD"),
   (⟨[("name", Value.str "A2")], [[("name", Value.str "F2")]]⟩, "BB")]

/-- The same two entities in the opposite arrival order. -/
def outOfOrderPayloadRev : List (SObjData × String) :=
  [(⟨[("name", Value.str "A2")], [[("name", Value.str "F2")]]⟩, "BB"),
   (⟨[("name", Value.str "A1")], [[("name", Value.str "F1")]]⟩, "DDD")]

/-- A store seeded from a prior snapshot: it already has the
`Last-Modified` and `FormatVersion` rows written by the prior cycle. -/
def seededWithMetadata : String → List Row :=
  fun t =>
    if t = "sobjects" then
      [[("name", Value.str "Account"), ("actionOverrides", Value.null),
        ("label", Value.null)]]
    else if t = "file_metadata" then
      [[("name", Value.str "Last-Modified"), ("value", Value.str "AAAA")],
       [("name", Value.str "FormatVersion"), ("value", Value.int 1)]]
    else []

theorem dictGet?_nil (k : String) : dictGet? [] k = none := rfl

theorem dictGet?_cons (kv : String × Value) (d : Row) (k : String) :
    dictGet? (kv :: d) k = if kv.1 == k then some kv.2 else dictGet? d k := by
  simp only [dictGet?, List.lookup]
  rcases kv with ⟨k', v⟩
  by_cases h : k = k'
  · subst h; simp
  · have h1 : (k == k') = false := by simpa using h
    have h2 : (k' == k) = false := by simpa using Ne.symm h
    simp [h1, h2]

theorem dictGet?_eq_none_of_not_mem (d : Row) (k : String)
    (h : k ∉ dictKeys d) : dictGet? d k = none := by
  induction d with
  | nil => rfl
  | cons kv rest ih =>
    rw [dictGet?_cons]
    have hk : kv.1 ≠ k := by
      intro he
      exact h (by simp [dictKeys, ← he])
    have hkb : (kv.1 == k) = false := by simpa using hk
    rw [hkb, if_neg Bool.false_ne_true]
    exact ih (fun hm => h (by simp [dictKeys] at hm ⊢; exact Or.inr hm))

theorem dictGet?_append_singleton_ne (d : Row) (k k' : String) (v : Value)
    (h : k' ≠ k) : dictGet? (d ++ [(k, v)]) k' = dictGet? d k' := by
  induction d with
  | nil =>
    rw [List.nil_append, dictGet?_cons]
    have hb : (k == k') = false := by simpa using Ne.symm h
    rw [hb, if_neg Bool.false_ne_true, dictGet?_nil]
  | cons kv rest ih =>
    rw [List.cons_append, dictGet?_cons, dictGet?_cons]
    by_cases hk : kv.1 == k'
    · rw [if_pos hk, if_pos hk]
    · rw [if_neg hk, if_neg hk, ih]

theorem dictGet?_mapSet_ne (d : Row) (k k' : String) (v : Value) (h : k' ≠ k) :
    dictGet? (d.map (fun kv => if kv.1 == k then (k, v) else kv)) k' =
      dictGet? d k' := by
  induction d with
  | nil => rfl
  | cons kv rest ih =>
    rw [List.map_cons]
    by_cases hk : kv.1 == k
    · rw [if_pos hk, dictGet?_cons, dictGet?_cons]
      have hb : (k == k') = false := by simpa using Ne.symm h
      have hfst : (kv.1 == k') = false := by
        have he : kv.1 = k := by simpa using hk
        rw [he]; exact hb
      rw [hb, hfst, if_neg Bool.false_ne_true, if_neg Bool.false_ne_true, ih]
    · rw [if_neg hk, dictGet?_cons, dictGet?_cons]
      by_cases hk' : kv.1 == k'
      · rw [if_pos hk', if_pos hk']
      · rw [if_neg hk', if_neg hk', ih]

theorem dictGet?_mapSet_self (d : Row) (k : String) (v : Value)
    (h : d.any (fun kv => kv.1 == k)) :
    dictGet? (d.map (fun kv => if kv.1 == k then (k, v) else kv)) k = some v := by
  induction d with
  | nil => simp at h
  | cons kv rest ih =>
    rw [List.map_cons]
    by_cases hk : kv.1 == k
    · rw [if_pos hk, dictGet?_cons]
      simp
    · rw [if_neg hk, dictGet?_cons, if_neg hk]
      simp only [List.any_cons, Bool.or_eq_true] at h
      rcases h with h | h
      · exact absurd h (by simpa using hk)
      · exact ih h

theorem dictGet?_dictSet_self (d : Row) (k : String) (v : Value) :
    dictGet? (dictSet d k v) k = some v := by
  unfold dictSet
  by_cases h : d.any (fun kv => kv.1 == k)
  · rw [if_pos h]
    exact dictGet?_mapSet_self d k v h
  · rw [if_neg h]
    have hnm : k ∉ dictKeys d := by
      intro hm
      apply h
      simp only [List.any_eq_true]
      rcases List.mem_map.mp hm with ⟨kv, hkv, hfst⟩
      exact ⟨kv, hkv, by simp [hfst]⟩
    induction d with
    | nil =>
      rw [List.nil_append, dictGet?_cons]
      simp
    | cons kv rest ih =>
      rw [List.cons_append, dictGet?_cons]
      have hk : kv.1 ≠ k := fun he => hnm (by simp [dictKeys, ← he])
      have hkb : (kv.1 == k) = false := by simpa using hk
      rw [hkb, if_neg Bool.false_ne_true]
      refine ih ?_ ?_
      · intro hany
        exact absurd (by simp only [List.any_cons, Bool.or_eq_true]; exact Or.inr hany) h
      · intro hm
        exact hnm (by simp [dictKeys] at hm ⊢; exact Or.inr hm)

theorem dictGet?_dictSet_ne (d : Row) (k k' : String) (v : Value)
    (h : k' ≠ k) : dictGet? (dictSet d k v) k' = dictGet? d k' := by
  unfold dictSet
  by_cases hany : d.any (fun kv => kv.1 == k)
  · rw [if_pos hany]
    exact dictGet?_mapSet_ne d k k' v h
  · rw [if_neg hany]
    exact dictGet?_append_singleton_ne d k k' v h

theorem dictKeys_dictSet (d : Row) (k : String) (v : Value) :
    dictKeys (dictSet d k v) = dictKeys d ∨
      dictKeys (dictSet d k v) = dictKeys d ++ [k] := by
  unfold dictSet
  by_cases h : d.any (fun kv => kv.1 == k)
  · left
    rw [if_pos h]
    unfold dictKeys
    rw [List.map_map]
    apply List.map_congr_left
    intro kv _
    by_cases hk : kv.1 == k
    · have : kv.1 = k := by simpa using hk
      simp [hk, this]
    · have hne : kv.1 ≠ k := by simpa using hk
      simp [hk, hne]
  · right
    rw [if_neg h]
    unfold dictKeys
    rw [List.map_append]
    rfl

/-- Lookup through a dict-merge `{**a, **b}` when `b` has no duplicate keys:
a key takes its value from `b` when present there, else from `a`. -/
theorem dictGet?_dictMerge (a b : Row) (k : String)
    (hnd : (dictKeys b).Nodup) :
    dictGet? (dictMerge a b) k =
      match dictGet? b k with
      | some v => some v
      | none => dictGet? a k := by
  induction b generalizing a with
  | nil => simp [dictMerge, dictGet?_nil]
  | cons kv rest ih =>
    have hnd' : (dictKeys rest).Nodup := by
      simpa [dictKeys] using hnd.of_cons
    have hknotin : kv.1 ∉ dictKeys rest := by
      have := hnd
      simp only [dictKeys, List.map_cons, List.nodup_cons] at this
      exact fun hm => this.1 (by simpa [dictKeys] using hm)
    have hstep : dictMerge a (kv :: rest) = dictMerge (dictSet a kv.1 kv.2) rest := by
      simp [dictMerge]
    rw [hstep, ih _ hnd', dictGet?_cons]
    by_cases hk : kv.1 == k
    · have he : kv.1 = k := by simpa using hk
      rw [if_pos hk]
      have : dictGet? rest k = none :=
        dictGet?_eq_none_of_not_mem rest k (he ▸ hknotin)
      rw [this]
      subst he
      rw [dictGet?_dictSet_self]
    · rw [if_neg hk]
      have hne : k ≠ kv.1 := Ne.symm (by simpa using hk)
      cases hrest : dictGet? rest k with
      | some v => rfl
      | none => rw [dictGet?_dictSet_ne a kv.1 k kv.2 hne]

theorem updT_self (f : String → List Row) (t : String) (v : List Row) :
    updT f t v t = v := by simp [updT]

theorem updT_ne (f : String → List Row) (t t' : String) (v : List Row)
    (h : t' ≠ t) : updT f t v t' = f t' := by simp [updT, h]

theorem flush_cons (p : String × List String) (tables : Tables) (s : BSState) :
    flush (p :: tables) s =
      flush tables
        (if (s.buffered p.1).isEmpty then s
         else
           { buffered := updT s.buffered p.1 []
             store := updT s.store p.1 (s.store p.1 ++ s.buffered p.1) }) := by
  rfl

/-- Flushing moves buffered rows into the store but never changes a table's
overall contents. -/
theorem contents_flush (tables : Tables) (s : BSState) (t : String) :
    contents (flush tables s) t = contents s t := by
  induction tables generalizing s with
  | nil => rfl
  | cons p rest ih =>
    rw [flush_cons]
    by_cases h : (s.buffered p.1).isEmpty
    · rw [if_pos h, ih]
    · rw [if_neg h, ih]
      unfold contents
      dsimp only
      by_cases ht : t = p.1
      · subst ht
        rw [updT_self, updT_self, List.append_nil]
      · rw [updT_ne _ _ _ _ ht, updT_ne _ _ _ _ ht]

/-- A table whose buffer is already empty keeps an empty buffer across a
flush (the flush loop only clears buffers). -/
theorem flush_buffered_stays_empty (tables : Tables) (s : BSState)
    (t : String) (h : s.buffered t = []) :
    (flush tables s).buffered t = [] := by
  induction tables generalizing s with
  | nil => exact h
  | cons q qs ih =>
    rw [flush_cons]
    by_cases hq : (s.buffered q.1).isEmpty
    · rw [if_pos hq]; exact ih s h
    · rw [if_neg hq]
      apply ih
      dsimp only
      by_cases hqt : t = q.1
      · subst hqt; rw [updT_self]
      · rw [updT_ne _ _ _ _ hqt]; exact h

/-- After a flush over table metadata containing `t`, the buffer of `t` is
empty. -/
theorem flush_buffered_empty (tables : Tables) (s : BSState) (t : String)
    (h : t ∈ tables.map (·.1)) : (flush tables s).buffered t = [] := by
  induction tables generalizing s with
  | nil => simp at h
  | cons p rest ih =>
    rw [flush_cons, List.map_cons] at *
    rcases List.mem_cons.mp h with ht | ht
    · by_cases h0 : (s.buffered p.1).isEmpty
      · rw [if_pos h0]
        apply flush_buffered_stays_empty
        rw [ht]
        exact List.isEmpty_iff.mp h0
      · rw [if_neg h0]
        apply flush_buffered_stays_empty
        dsimp only
        rw [ht, updT_self]
    · by_cases h0 : (s.buffered p.1).isEmpty
      · rw [if_pos h0]; exact ih s ht
      · rw [if_neg h0]; exact ih _ ht

/-- Flushing does not touch tables outside the metadata. -/
theorem flush_store_not_mem (tables : Tables) (s : BSState) (t : String)
    (h : t ∉ tables.map (·.1)) : (flush tables s).store t = s.store t := by
  induction tables generalizing s with
  | nil => rfl
  | cons p rest ih =>
    rw [flush_cons]
    have hne : t ≠ p.1 := fun he => h (by simp [he])
    have hrest : t ∉ rest.map (·.1) := fun hm => h (by simp [hm])
    by_cases h0 : (s.buffered p.1).isEmpty
    · rw [if_pos h0]; exact ih s hrest
    · rw [if_neg h0]
      rw [ih _ hrest]
      dsimp only
      rw [updT_ne _ _ _ _ hne]

theorem write_single_row_some (tables : Tables) (k : Nat) (t : String)
    (row : Row) (s : BSState) (hf : (findTable tables t).isSome) :
    ∃ s', write_single_row tables k t row s = some s' ∧
      (∀ u, contents s' u =
        contents s u ++
          (if t = u
           then [normalizeRow (((findTable tables t).map (·.2)).getD []) row]
           else [])) := by
  rcases Option.isSome_iff_exists.mp hf with ⟨p, hp⟩
  have hcols : ((findTable tables t).map (·.2)).getD [] = p.2 := by rw [hp]; rfl
  rw [hcols]
  have hc : ∀ u,
      contents
        { s with buffered := updT s.buffered t (s.buffered t ++ [normalizeRow p.2 row]) } u
        = contents s u ++ (if t = u then [normalizeRow p.2 row] else []) := by
    intro u
    by_cases hu : t = u
    · subst hu
      simp [contents, updT_self, List.append_assoc]
    · have hu' : u ≠ t := Ne.symm hu
      simp [contents, updT_ne _ _ _ _ hu', if_neg hu]
  unfold write_single_row
  rw [hp]
  dsimp only
  split
  · exact ⟨_, rfl, fun u => by rw [contents_flush, hc u]⟩
  · exact ⟨_, rfl, hc⟩

/-- Main buffering invariant: a sequence of `write_single_row` calls (to
declared tables) succeeds and appends exactly the normalized written rows to
each table's contents, whatever the buffer threshold. -/
theorem foldWrites_contents (tables : Tables) (k : Nat)
    (writes : List (String × Row)) (s : BSState)
    (hw : ∀ w ∈ writes, (findTable tables w.1).isSome) :
    ∃ s', writes.foldlM
        (fun s w => write_single_row tables k w.1 w.2 s) s = some s' ∧
      ∀ t, contents s' t = contents s t ++ writtenRows tables writes t := by
  induction writes generalizing s with
  | nil =>
    refine ⟨s, rfl, ?_⟩
    intro t
    simp [writtenRows]
  | cons w ws ih =>
    rcases write_single_row_some tables k w.1 w.2 s
        (hw w (List.mem_cons_self w ws)) with ⟨s1, hs1, hc1⟩
    rcases ih s1 (fun x hx => hw x (List.mem_cons_of_mem w hx)) with ⟨s', hs', hc'⟩
    refine ⟨s', ?_, ?_⟩
    · rw [List.foldlM_cons, hs1]
      simpa using hs'
    · intro t
      rw [hc' t, hc1 t]
      unfold writtenRows
      rw [List.filter_cons]
      by_cases ht : w.1 = t
      · subst ht
        simp [List.append_assoc]
      · have htb : (w.1 == t) = false := by simpa using ht
        simp [htb, ht]

theorem findTable_isSome_iff (tables : Tables) (t : String) :
    (findTable tables t).isSome ↔ t ∈ tables.map (·.1) := by
  unfold findTable
  rw [List.find?_isSome]
  constructor
  · rintro ⟨x, hx, hp⟩
    have hxt : x.1 = t := by simpa using hp
    exact hxt ▸ List.mem_map_of_mem _ hx
  · intro h
    rcases List.mem_map.mp h with ⟨x, hx, hfst⟩
    exact ⟨x, hx, by simp [hfst]⟩

theorem writtenRows_undeclared (tables : Tables) (writes : List (String × Row))
    (t : String) (hw : ∀ w ∈ writes, (findTable tables w.1).isSome)
    (h : ¬(findTable tables t).isSome) :
    writtenRows tables writes t = [] := by
  unfold writtenRows
  have hfil : writes.filter (fun w => w.1 == t) = [] := by
    rw [List.filter_eq_nil_iff]
    intro w hwmem hpt
    have he : w.1 = t := by simpa using hpt
    exact h (he ▸ hw w hwmem)
  rw [hfil]
  rfl

theorem closeSession_store (tables : Tables) (s : BSState) (t : String)
    (h : t ∈ tables.map (·.1)) :
    (closeSession tables s).store t = contents s t := by
  have h1 := contents_flush tables s t
  have h2 := flush_buffered_empty tables s t h
  unfold contents at h1
  rw [h2, List.append_nil] at h1
  exact h1

theorem closeSession_store_undeclared (tables : Tables) (s : BSState)
    (t : String) (h : t ∉ tables.map (·.1)) :
    (closeSession tables s).store t = s.store t :=
  flush_store_not_mem tables s t h

theorem dictGet?_colDefaults (cols : List String) (c : String) (h : c ∈ cols) :
    dictGet? (colDefaults cols) c = some Value.null := by
  induction cols with
  | nil => simp at h
  | cons c0 cs ih =>
    simp only [colDefaults, List.map_cons]
    rw [dictGet?_cons]
    by_cases hc : c0 == c
    · rw [if_pos hc]
    · rw [if_neg hc]
      rcases List.mem_cons.mp h with he | hm
      · exact absurd (by simpa using he.symm) hc
      · exact ih hm

/-- Normalization keeps the value of a key the input row provides. -/
theorem normalizeRow_lookup_present (cols : List String) (row : Row)
    (k : String) (v : Value) (hnd : (dictKeys row).Nodup)
    (h : dictGet? row k = some v) :
    dictGet? (normalizeRow cols row) k = some v := by
  unfold normalizeRow
  rw [dictGet?_dictMerge _ _ _ hnd, h]

/-- Normalization gives every declared column an explicit value: the
provided one, or the null placeholder. -/
theorem normalizeRow_lookup (cols : List String) (row : Row) (c : String)
    (hc : c ∈ cols) (hnd : (dictKeys row).Nodup) :
    dictGet? (normalizeRow cols row) c =
      some ((dictGet? row c).getD Value.null) := by
  unfold normalizeRow
  rw [dictGet?_dictMerge _ _ _ hnd]
  cases h : dictGet? row c with
  | some v => rfl
  | none => rw [dictGet?_colDefaults cols c hc]; rfl

theorem dictKeys_nodup_dictSet (d : Row) (k : String) (v : Value)
    (hnd : (dictKeys d).Nodup) : (dictKeys (dictSet d k v)).Nodup := by
  unfold dictSet
  by_cases h : d.any (fun kv => kv.1 == k)
  · rw [if_pos h]
    have hkeys : dictKeys (d.map fun kv => if kv.1 == k then (k, v) else kv) =
        dictKeys d := by
      unfold dictKeys
      rw [List.map_map]
      apply List.map_congr_left
      intro kv _
      by_cases hk : kv.1 == k
      · have he : kv.1 = k := by simpa using hk
        simp [hk, he]
      · have hne : kv.1 ≠ k := by simpa using hk
        simp [hk, hne]
    rw [hkeys]
    exact hnd
  · rw [if_neg h]
    have hnm : k ∉ dictKeys d := by
      intro hm
      apply h
      rcases List.mem_map.mp hm with ⟨kv, hkv, hfst⟩
      exact List.any_eq_true.mpr ⟨kv, hkv, by simp [hfst]⟩
    unfold dictKeys
    rw [List.map_append]
    refine List.Nodup.append hnd (List.nodup_singleton k) ?_
    intro a ha hb
    have : a = k := by simpa using hb
    exact hnm (this ▸ ha)

/-- C8: for every table with declared columns and every input value
mapping, the row buffered by `write_single_row` has an explicit value for
every declared column of the table — columns missing from the input are
filled with the null placeholder, and columns present in the input keep
their provided values. -/
theorem write_single_row_normalizes (tables : Tables) (k : Nat) (t : String)
    (cols : List String) (row : Row) (s : BSState)
    (hfind : findTable tables t = some (t, cols))
    (hnd : (dictKeys row).Nodup) :
    ∃ s', write_single_row tables k t row s = some s' ∧
      contents s' t = contents s t ++ [normalizeRow cols row] ∧
      ∀ c ∈ cols, dictGet? (normalizeRow cols row) c =
        some ((dictGet? row c).getD Value.null) := by
  rcases write_single_row_some tables k t row s (by rw [hfind]; rfl)
    with ⟨s', h1, h2⟩
  refine ⟨s', h1, ?_, ?_⟩
  · have h3 := h2 t
    rw [if_pos rfl, hfind] at h3
    simpa using h3
  · intro c hc
    exact normalizeRow_lookup cols row c hc hnd

/-- C8 witness: the instance of a one-column row written to the three-column
`sobjects` table. -/
theorem write_single_row_normalizes_witness :
    ∃ s', write_single_row tablesEx 1000 "sobjects"
        [("name", Value.str "Account")] emptyBS = some s' ∧
      contents s' "sobjects" = contents emptyBS "sobjects" ++
        [normalizeRow ["name", "actionOverrides", "label"]
          [("name", Value.str "Account")]] ∧
      ∀ c ∈ ["name", "actionOverrides", "label"],
        dictGet? (normalizeRow ["name", "actionOverrides", "label"]
            [("name", Value.str "Account")]) c =
          some ((dictGet? [("name", Value.str "Account")] c).getD Value.null) :=
  write_single_row_normalizes tablesEx 1000 "sobjects"
    ["name", "actionOverrides", "label"] [("name", Value.str "Account")]
    emptyBS (by decide) (by decide)

/-- C7: for every sequence of rows written through the Buffered Bulk
Writer and every batch threshold, the writer succeeds and after `close()`
every table holds exactly the normalized written rows; in particular two
writers differing only in their max-buffer-size produce identical store
contents. -/
theorem bufferedWriter_threshold_irrelevant (tables : Tables) (k1 k2 : Nat)
    (writes : List (String × Row)) (hne : tables ≠ [])
    (hw : ∀ w ∈ writes, (findTable tables w.1).isSome) :
    ∃ s1 s2, runWrites tables k1 writes = some s1 ∧
      runWrites tables k2 writes = some s2 ∧
      ∀ t, (closeSession tables s1).store t = writtenRows tables writes t ∧
        (closeSession tables s2).store t = writtenRows tables writes t := by
  have hinit : initBufferedSession tables = some emptyBS := by
    unfold initBufferedSession
    rw [if_neg (by simpa [List.isEmpty_iff] using hne)]
  have main : ∀ k, ∃ s, runWrites tables k writes = some s ∧
      ∀ t, (closeSession tables s).store t = writtenRows tables writes t := by
    intro k
    rcases foldWrites_contents tables k writes emptyBS hw with ⟨s, hs, hc⟩
    refine ⟨s, ?_, ?_⟩
    · unfold runWrites
      rw [hinit]
      simpa using hs
    · intro t
      have hct : contents s t = writtenRows tables writes t := by
        have h0 := hc t
        simpa [contents, emptyBS] using h0
      by_cases ht : t ∈ tables.map (·.1)
      · rw [closeSession_store tables s t ht, hct]
      · have hnone : ¬(findTable tables t).isSome := by
          rw [findTable_isSome_iff]
          exact ht
        have hwr : writtenRows tables writes t = [] :=
          writtenRows_undeclared tables writes t hw hnone
        rw [closeSession_store_undeclared tables s t ht, hwr]
        have hcc : contents s t = [] := by rw [hct, hwr]
        unfold contents at hcc
        exact (List.append_eq_nil.mp hcc).1
  rcases main k1 with ⟨s1, h1, hc1⟩
  rcases main k2 with ⟨s2, h2, hc2⟩
  exact ⟨s1, s2, h1, h2, fun t => ⟨hc1 t, hc2 t⟩⟩

/-- C7 witness: the same two writes through thresholds 1 and 1000 yield the
same store contents. -/
theorem bufferedWriter_threshold_irrelevant_witness :
    ∃ s1 s2, runWrites tablesEx 1
        [("sobjects", [("name", Value.str "Account")]),
         ("fields", [("name", Value.str "Id"), ("sobject", Value.str "Account")])] = some s1 ∧
      runWrites tablesEx 1000
        [("sobjects", [("name", Value.str "Account")]),
         ("fields", [("name", Value.str "Id"), ("sobject", Value.str "Account")])] = some s2 ∧
      ∀ t, (closeSession tablesEx s1).store t =
          writtenRows tablesEx
            [("sobjects", [("name", Value.str "Account")]),
             ("fields", [("name", Value.str "Id"), ("sobject", Value.str "Account")])] t ∧
        (closeSession tablesEx s2).store t =
          writtenRows tablesEx
            [("sobjects", [("name", Value.str "Account")]),
             ("fields", [("name", Value.str "Id"), ("sobject", Value.str "Account")])] t :=
  bufferedWriter_threshold_irrelevant tablesEx 1 1000
    [("sobjects", [("name", Value.str "Account")]),
     ("fields", [("name", Value.str "Id"), ("sobject", Value.str "Account")])]
    (by decide) (by decide)

/-- C10: lookup-by-name returns the unique entity row with that name when
exactly one exists, and fails with the `NotFound`-style `KeyError` exactly
when no row with that name is present (two or more rows raise
`MultipleResultsFound` instead, which is neither). -/
theorem getitem_spec (rows : List Row) (n : String) :
    (∀ r, rows.filter (fun r' => dictGet? r' "name" == some (Value.str n)) = [r] →
      getitem rows n = Except.ok r) ∧
    ((∃ msg, getitem rows n = Except.error (LookupErr.notFound msg)) ↔
      rows.filter (fun r' => dictGet? r' "name" == some (Value.str n)) = []) := by
  constructor
  · intro r h
    unfold getitem
    rw [h]
  · unfold getitem
    cases h : rows.filter (fun r' => dictGet? r' "name" == some (Value.str n)) with
    | nil => simp
    | cons a l =>
      cases l with
      | nil => simp
      | cons b l2 => simp

/-- C10 witness: lookup of the single `Account` row, via the theorem. -/
theorem getitem_spec_witness :
    getitem [[("name", Value.str "Account"), ("label", Value.null)]] "Account" =
      Except.ok [("name", Value.str "Account"), ("label", Value.null)] :=
  (getitem_spec [[("name", Value.str "Account"), ("label", Value.null)]]
    "Account").1 _ (by decide)

/-- C4 counterexample: after `block_writing`, a non-commit write attempt
(`session.execute`-based insertion) still succeeds and mutates the store
instead of failing, because only `session.commit` is replaced. -/
theorem freeze_does_not_block_all_writes :
    executeInsert "sobjects" [("name", Value.str "Contact")]
        (block_writing session0) =
      Except.ok
        { rows := session0.rows ++ [("sobjects", [("name", Value.str "Contact")])]
          commitBlocked := true } ∧
    session0.rows ++ [("sobjects", [("name", Value.str "Contact")])] ≠
      session0.rows := by
  exact ⟨rfl, by decide⟩

/-- C4 amended: after `block_writing`, `commit` fails with the
`IOError("Database is not open for writing")`, reads (lookup and key
listing) return the same results as before freezing, and non-commit write
entry points are not blocked. -/
theorem block_writing_blocks_only_commit (s : DbSession) :
    commitSession (block_writing s) =
      Except.error "Database is not open for writing" ∧
    (∀ n, sessionGetitem (block_writing s) n = sessionGetitem s n) ∧
    schemaKeys (block_writing s) = schemaKeys s ∧
    ∀ t r, executeInsert t r (block_writing s) =
      Except.ok { rows := s.rows ++ [(t, r)], commitBlocked := true } :=
  ⟨rfl, fun _ => rfl, rfl, fun _ _ => rfl⟩

/-- C3 counterexample: running `zip_database` over a prior artifact passes
through a state (after the destination is opened with mode `"wb"`) in
which the artifact is neither the complete prior artifact nor absent. -/
theorem zip_database_not_atomic :
    some ([] : List Nat) ∈
      (fileStates (zip_database id [1, 2]) (some [3, 4])).dropLast ∧
    some ([] : List Nat) ≠ some [3, 4] ∧
    some ([] : List Nat) ≠ (none : Option (List Nat)) := by
  refine ⟨by decide, by decide, by decide⟩

/-- C3 amended: `zip_database` truncates the artifact in place before
writing the compressed bytes; between truncation and completion the
artifact holds a partial (empty) file rather than the prior artifact, and
only a completed run leaves the new compressed copy. -/
theorem zip_database_truncates_then_writes (gz : List Nat → List Nat)
    (db prior : List Nat) (hne : prior ≠ []) :
    fileStates (zip_database gz db) (some prior) =
      [some prior, some [], some (gz db)] ∧
    some ([] : List Nat) ∈
      (fileStates (zip_database gz db) (some prior)).dropLast ∧
    some ([] : List Nat) ≠ some prior := by
  refine ⟨rfl, ?_, by simpa using Ne.symm hne⟩
  show some [] ∈ ([some prior, some [], some (gz db)] :
    List (Option (List Nat))).dropLast
  simp

/-- C3 amended witness. -/
theorem zip_database_truncates_then_writes_witness :
    fileStates (zip_database id [1, 2]) (some [7]) =
      [some [7], some [], some (id [1, 2])] ∧
    some ([] : List Nat) ∈
      (fileStates (zip_database id [1, 2]) (some [7])).dropLast ∧
    some ([] : List Nat) ≠ some [7] :=
  zip_database_truncates_then_writes id [1, 2] [7] (by decide)

/-- The field loop of one entity, split into its writes and its watermark
updates. -/
theorem populate_fields_fold_eq {D : Type} [LinearOrder D] (p : String → D)
    (tables : Tables) (attrs : Row) (ts : String) (fields : List Row)
    (s : BSState) (m : D × String) :
    fields.foldlM
        (fun (a : BSState × (D × String)) f =>
          (write_single_row tables 1000 "fields" (fieldRow attrs f) a.1).map
            fun s2 => (s2, updateMax p a.2 ts))
        (s, m) =
      ((fields.map (fun f => (("fields" : String), fieldRow attrs f))).foldlM
          (fun s w => write_single_row tables 1000 w.1 w.2 s) s).map
        (fun s' => (s', fields.foldl (fun a2 _ => updateMax p a2 ts) m)) := by
  induction fields generalizing s m with
  | nil => rfl
  | cons f fs ih =>
    rw [List.map_cons, List.foldlM_cons, List.foldlM_cons]
    cases hw : write_single_row tables 1000 "fields" (fieldRow attrs f) s with
    | none => simp [hw]
    | some s1 =>
      simp only [hw, Option.map_some', Option.some_bind, List.foldl_cons]
      exact ih s1 (updateMax p m ts)

/-- The entity loop of `populate_cache`, split into the flat write sequence
`populateWrites` and the pure watermark fold. -/
theorem populateLoop_eq {D : Type} [LinearOrder D] (p : String → D)
    (tables : Tables) (payloads : List (SObjData × String))
    (s : BSState) (m : D × String) :
    payloads.foldlM (populateStep p tables) (s, m) =
      ((populateWrites payloads).foldlM
          (fun s w => write_single_row tables 1000 w.1 w.2 s) s).map
        (fun s' => (s', payloads.foldl
            (fun a e => e.1.fields.foldl (fun a2 _ => updateMax p a2 e.2) a) m)) := by
  induction payloads generalizing s m with
  | nil => rfl
  | cons e rest ih =>
    rw [List.foldlM_cons]
    show (populateStep p tables (s, m) e).bind _ = _
    unfold populateStep
    cases hw : write_single_row tables 1000 "sobjects" (sobjAttrs e.1) s with
    | none =>
      simp only [populateWrites, List.foldlM_cons, hw]
      simp
    | some s1 =>
      simp only [populateWrites, List.foldlM_cons, hw, Option.bind_eq_bind,
        Option.some_bind]
      rw [populate_fields_fold_eq p tables (sobjAttrs e.1) e.2 e.1.fields s1 m]
      rw [List.foldlM_append]
      cases hff : (e.1.fields.map (fun f => (("fields" : String), fieldRow (sobjAttrs e.1) f))).foldlM
          (fun s w => write_single_row tables 1000 w.1 w.2 s) s1 with
      | none => simp [hff]
      | some s2 =>
        simp only [hff, Option.map_some', Option.bind_eq_bind, Option.some_bind,
          List.foldl_cons]
        exact ih s2 _

/-- `populate_cache` is the flat write sequence (entity/field rows then the
two metadata rows carrying the watermark) followed by the closing flush. -/
theorem populate_cache_eq {D : Type} [LinearOrder D] (p : String → D)
    (tables : Tables) (prev : String) (payloads : List (SObjData × String))
    (store0 : String → List Row) (hne : tables ≠ []) :
    populate_cache p tables prev payloads store0 =
      ((populateWrites payloads ++ metaRows (populateMax p prev payloads).2).foldlM
          (fun s w => write_single_row tables 1000 w.1 w.2 s)
          (⟨fun _ => [], store0⟩ : BSState)).map (closeSession tables) := by
  unfold populate_cache
  rw [if_neg (by simpa [List.isEmpty_iff] using hne)]
  rw [populateLoop_eq p tables payloads (⟨fun _ => [], store0⟩ : BSState) (sortKey p prev)]
  rw [List.foldlM_append]
  cases hpw : (populateWrites payloads).foldlM
      (fun s w => write_single_row tables 1000 w.1 w.2 s)
      (⟨fun _ => [], store0⟩ : BSState) with
  | none => simp [hpw]
  | some s1 =>
    simp only [hpw, Option.map_some', Option.bind_eq_bind, Option.some_bind]
    show (write_single_row tables 1000 "file_metadata"
        [("name", Value.str "Last-Modified"),
         ("value", Value.str (populateMax p prev payloads).2)] s1).bind _ = _
    unfold metaRows
    rw [List.foldlM_cons]
    cases hw1 : write_single_row tables 1000 "file_metadata"
        [("name", Value.str "Last-Modified"),
         ("value", Value.str (populateMax p prev payloads).2)] s1 with
    | none => simp [hw1]
    | some a1 =>
      simp only [hw1, Option.some_bind, List.foldlM_cons]
      cases hw2 : write_single_row tables 1000 "file_metadata"
          [("name", Value.str "FormatVersion"), ("value", Value.int 1)] a1 with
      | none => simp [hw2]
      | some a2 => simp [hw2]

/-- Every write of the entity loop targets the `sobjects` or `fields`
table. -/
theorem populateWrites_mem {w : String × Row} {l : List (SObjData × String)}
    (h : w ∈ populateWrites l) : w.1 = "sobjects" ∨ w.1 = "fields" := by
  induction l with
  | nil => simp [populateWrites] at h
  | cons e rest ih =>
    simp only [populateWrites, List.mem_cons, List.mem_append] at h
    rcases h with h | h | h
    · left; rw [h]
    · rcases List.mem_map.mp h with ⟨f, _, hw⟩
      right; rw [← hw]
    · exact ih h

/-- `populate_cache` succeeds whenever the three tables are declared, and
each declared table then holds its prior rows followed by the normalized
rows the cycle wrote. -/
theorem populate_cache_some {D : Type} [LinearOrder D] (p : String → D)
    (tables : Tables) (prev : String) (payloads : List (SObjData × String))
    (store0 : String → List Row)
    (hs : (findTable tables "sobjects").isSome)
    (hf : (findTable tables "fields").isSome)
    (hm : (findTable tables "file_metadata").isSome) :
    ∃ s, populate_cache p tables prev payloads store0 = some s ∧
      ∀ t ∈ tables.map (·.1),
        s.store t = store0 t ++
          writtenRows tables
            (populateWrites payloads ++ metaRows (populateMax p prev payloads).2)
            t := by
  have hne : tables ≠ [] := by
    intro h
    rw [h] at hs
    simp [findTable] at hs
  have hw : ∀ w ∈ populateWrites payloads ++ metaRows (populateMax p prev payloads).2,
      (findTable tables w.1).isSome := by
    intro w hwmem
    rcases List.mem_append.mp hwmem with h | h
    · rcases populateWrites_mem h with h1 | h1
      · rw [h1]; exact hs
      · rw [h1]; exact hf
    · have h1 : w.1 = "file_metadata" := by
        simp only [metaRows, List.mem_cons, List.mem_singleton] at h
        rcases h with h | h | h
        · rw [h]
        · rw [h]
        · simp at h
      rw [h1]; exact hm
  rcases foldWrites_contents tables 1000
      (populateWrites payloads ++ metaRows (populateMax p prev payloads).2)
      (⟨fun _ => [], store0⟩ : BSState) hw with ⟨s', hs', hc⟩
  refine ⟨closeSession tables s', ?_, ?_⟩
  · rw [populate_cache_eq p tables prev payloads store0 hne, hs']
    rfl
  · intro t ht
    rw [closeSession_store tables s' t ht, hc t]
    simp [contents]

theorem populateWrites_filter_sobjects (l : List (SObjData × String)) :
    (populateWrites l).filter (fun w => w.1 == "sobjects") =
      l.map (fun e => (("sobjects" : String), sobjAttrs e.1)) := by
  induction l with
  | nil => rfl
  | cons e rest ih =>
    simp only [populateWrites, List.filter_cons, List.filter_append, List.map_cons]
    have h2 : (e.1.fields.map
        (fun f => (("fields" : String), fieldRow (sobjAttrs e.1) f))).filter
          (fun w => w.1 == "sobjects") = [] := by
      rw [List.filter_eq_nil_iff]
      intro w hwmem hp
      rcases List.mem_map.mp hwmem with ⟨f, _, hfw⟩
      rw [← hfw] at hp
      simp at hp
    rw [h2, ih]
    rfl

theorem populateWrites_filter_fm (l : List (SObjData × String)) :
    (populateWrites l).filter (fun w => w.1 == "file_metadata") = [] := by
  rw [List.filter_eq_nil_iff]
  intro w hwmem hp
  have he : w.1 = "file_metadata" := by simpa using hp
  rcases populateWrites_mem hwmem with h | h <;> rw [h] at he <;> simp at he

theorem writtenRows_populate_sobjects (tables : Tables)
    (l : List (SObjData × String)) (wm : String) :
    writtenRows tables (populateWrites l ++ metaRows wm) "sobjects" =
      l.map (fun e =>
        normalizeRow (((findTable tables "sobjects").map (·.2)).getD [])
          (sobjAttrs e.1)) := by
  unfold writtenRows
  rw [List.filter_append, populateWrites_filter_sobjects]
  have hmeta : (metaRows wm).filter (fun w => w.1 == "sobjects") = [] := by
    rfl
  rw [hmeta, List.append_nil, List.map_map]
  rfl

theorem writtenRows_populate_fm (tables : Tables)
    (l : List (SObjData × String)) (wm : String) :
    writtenRows tables (populateWrites l ++ metaRows wm) "file_metadata" =
      [normalizeRow (((findTable tables "file_metadata").map (·.2)).getD [])
          [("name", Value.str "Last-Modified"), ("value", Value.str wm)],
       normalizeRow (((findTable tables "file_metadata").map (·.2)).getD [])
          [("name", Value.str "FormatVersion"), ("value", Value.int 1)]] := by
  unfold writtenRows
  rw [List.filter_append, populateWrites_filter_fm]
  rfl

/-- The lookup of `Last-Modified` over exactly the two normalized metadata
rows returns the watermark value. -/
theorem last_modified_of_meta (colsM : List String) (wm : String) :
    last_modified_date
      [normalizeRow colsM
          [("name", Value.str "Last-Modified"), ("value", Value.str wm)],
       normalizeRow colsM
          [("name", Value.str "FormatVersion"), ("value", Value.int 1)]] =
      Except.ok (some (Value.str wm)) := by
  have hnd1 : (dictKeys [("name", Value.str "Last-Modified"),
      ("value", Value.str wm)]).Nodup := by
    show (["name", "value"] : List String).Nodup
    decide
  have hnd2 : (dictKeys [("name", Value.str "FormatVersion"),
      ("value", Value.int 1)]).Nodup := by
    show (["name", "value"] : List String).Nodup
    decide
  have h1 : dictGet? (normalizeRow colsM
      [("name", Value.str "Last-Modified"), ("value", Value.str wm)]) "name" =
      some (Value.str "Last-Modified") :=
    normalizeRow_lookup_present _ _ _ _ hnd1 rfl
  have h2 : dictGet? (normalizeRow colsM
      [("name", Value.str "FormatVersion"), ("value", Value.int 1)]) "name" =
      some (Value.str "FormatVersion") :=
    normalizeRow_lookup_present _ _ _ _ hnd2 rfl
  have h3 : dictGet? (normalizeRow colsM
      [("name", Value.str "Last-Modified"), ("value", Value.str wm)]) "value" =
      some (Value.str wm) :=
    normalizeRow_lookup_present _ _ _ _ hnd1 rfl
  have c1 : (dictGet? (normalizeRow colsM
      [("name", Value.str "Last-Modified"), ("value", Value.str wm)]) "name" ==
      some (Value.str "Last-Modified")) = true := by
    rw [h1]; rfl
  have c2 : (dictGet? (normalizeRow colsM
      [("name", Value.str "FormatVersion"), ("value", Value.int 1)]) "name" ==
      some (Value.str "Last-Modified")) = false := by
    rw [h2]; rfl
  unfold last_modified_date lastModifiedRows
  rw [List.filter_cons, List.filter_cons, List.filter_nil, c1, c2]
  simp [h3]

/-! ## Order facts about the `(parsed, raw)` comparison -/

theorem tsGtB_iff {D : Type} [LinearOrder D] (a b : D × String) :
    tsGtB a b = true ↔ tsLt b a := by
  unfold tsGtB tsLt
  simp [Bool.or_eq_true, Bool.and_eq_true, decide_eq_true_iff]

theorem tsGtB_eq_false_iff {D : Type} [LinearOrder D] (a b : D × String) :
    tsGtB a b = false ↔ ¬ tsLt b a := by
  rw [← tsGtB_iff]
  cases h : tsGtB a b <;> simp

theorem tsLt_irrefl_pair {D : Type} [LinearOrder D] (a : D × String) :
    ¬ tsLt a a := by
  unfold tsLt
  simp

theorem tsLt_trans_pair {D : Type} [LinearOrder D] {a b c : D × String}
    (h1 : tsLt a b) (h2 : tsLt b c) : tsLt a c := by
  unfold tsLt at h1 h2 ⊢
  rcases h1 with h1 | ⟨e1, l1⟩
  · rcases h2 with h2 | ⟨e2, l2⟩
    · exact Or.inl (lt_trans h1 h2)
    · exact Or.inl (e2 ▸ h1)
  · rcases h2 with h2 | ⟨e2, l2⟩
    · exact Or.inl (e1 ▸ h2)
    · exact Or.inr ⟨e1.trans e2, lt_trans l1 l2⟩

theorem tsLt_total_eq {D : Type} [LinearOrder D] {a b : D × String}
    (h1 : ¬ tsLt a b) (h2 : ¬ tsLt b a) : a = b := by
  unfold tsLt at h1 h2
  have h1a : ¬ a.1 < b.1 := fun h => h1 (Or.inl h)
  have h2a : ¬ b.1 < a.1 := fun h => h2 (Or.inl h)
  have he : a.1 = b.1 := le_antisymm (not_lt.mp h2a) (not_lt.mp h1a)
  have h1b : ¬ a.2 < b.2 := fun h => h1 (Or.inr ⟨he, h⟩)
  have h2b : ¬ b.2 < a.2 := fun h => h2 (Or.inr ⟨he.symm, h⟩)
  have he2 : a.2 = b.2 := le_antisymm (not_lt.mp h2b) (not_lt.mp h1b)
  exact Prod.ext he he2

/-- The loop update is right-commutative: updating with two timestamps in
either order yields the same running maximum. -/
theorem updateMax_right_comm {D : Type} [LinearOrder D] (p : String → D)
    (a : D × String) (x y : String) :
    updateMax p (updateMax p a x) y = updateMax p (updateMax p a y) x := by
  unfold updateMax
  by_cases hx : tsGtB (sortKey p x) a = true
  · by_cases hy : tsGtB (sortKey p y) a = true
    · rw [if_pos hx, if_pos hy]
      by_cases hxy : tsGtB (sortKey p y) (sortKey p x) = true
      · rw [if_pos hxy]
        have hyx : tsGtB (sortKey p x) (sortKey p y) = false := by
          rw [tsGtB_eq_false_iff]
          exact fun h =>
            tsLt_irrefl_pair _ (tsLt_trans_pair h ((tsGtB_iff _ _).mp hxy))
        rw [if_neg (by simp [hyx])]
      · rw [if_neg hxy]
        by_cases hyx : tsGtB (sortKey p x) (sortKey p y) = true
        · rw [if_pos hyx]
        · rw [if_neg hyx]
          exact tsLt_total_eq
            (fun h => hxy ((tsGtB_iff _ _).mpr h))
            (fun h => hyx ((tsGtB_iff _ _).mpr h))
    · rw [if_pos hx, if_neg hy, if_pos hx]
      have hxyf : tsGtB (sortKey p y) (sortKey p x) = false := by
        rw [tsGtB_eq_false_iff]
        intro hcon
        exact hy ((tsGtB_iff _ _).mpr
          (tsLt_trans_pair ((tsGtB_iff _ _).mp hx) hcon))
      rw [if_neg (by simp [hxyf])]
  · by_cases hy : tsGtB (sortKey p y) a = true
    · rw [if_neg hx, if_pos hy]
      have hyxf : tsGtB (sortKey p x) (sortKey p y) = false := by
        rw [tsGtB_eq_false_iff]
        intro hcon
        exact hx ((tsGtB_iff _ _).mpr
          (tsLt_trans_pair ((tsGtB_iff _ _).mp hy) hcon))
      rw [if_neg (by simp [hyxf])]
    · rw [if_neg hx, if_neg hy, if_neg hx]

theorem updateMax_idem {D : Type} [LinearOrder D] (p : String → D)
    (a : D × String) (ts : String) :
    updateMax p (updateMax p a ts) ts = updateMax p a ts := by
  unfold updateMax
  by_cases h : tsGtB (sortKey p ts) a = true
  · rw [if_pos h, ite_self]
  · rw [if_neg h, if_neg h]

theorem foldl_updateMax_const {D : Type} [LinearOrder D] (p : String → D)
    (ts : String) (b : D × String) (fs : List Row)
    (hb : updateMax p b ts = b) :
    fs.foldl (fun a2 _ => updateMax p a2 ts) b = b := by
  induction fs with
  | nil => rfl
  | cons f fs ih => rw [List.foldl_cons, hb]; exact ih

/-- The per-entity inner fold: with at least one field the update fires
exactly once (further fields repeat the same comparison). -/
theorem fieldsFoldMax_eq {D : Type} [LinearOrder D] (p : String → D)
    (ts : String) (a : D × String) (fields : List Row) (hne : fields ≠ []) :
    fields.foldl (fun a2 _ => updateMax p a2 ts) a = updateMax p a ts := by
  cases fields with
  | nil => exact absurd rfl hne
  | cons f fs =>
    rw [List.foldl_cons]
    exact foldl_updateMax_const p ts _ fs (updateMax_idem p a ts)

/-- The watermark fold only sees entities with a nonempty field list. -/
theorem populateMax_eq_filter {D : Type} [LinearOrder D] (p : String → D)
    (prev : String) (l : List (SObjData × String)) :
    populateMax p prev l =
      (l.filter (fun e => !e.1.fields.isEmpty)).foldl
        (fun a e => updateMax p a e.2) (sortKey p prev) := by
  unfold populateMax
  generalize sortKey p prev = a
  induction l generalizing a with
  | nil => rfl
  | cons e rest ih =>
    rw [List.foldl_cons, List.filter_cons]
    by_cases h : e.1.fields.isEmpty
    · rw [List.isEmpty_iff.mp h]
      simp only [List.foldl_nil]
      rw [if_neg (by simp)]
      exact ih a
    · have hne : e.1.fields ≠ [] := by
        intro h0
        exact h (by simp [h0])
      rw [fieldsFoldMax_eq p e.2 a e.1.fields hne]
      rw [if_pos (by simp at h; simp [h]), List.foldl_cons]
      exact ih _

/-- The spec-side amended watermark coincides with the loop's fold. -/
theorem specWatermarkChanged_eq {D : Type} [LinearOrder D] (p : String → D)
    (prev : String) (l : List (SObjData × String)) :
    specWatermarkChanged p prev l = (populateMax p prev l).2 := by
  unfold specWatermarkChanged
  rw [populateMax_eq_filter, List.foldl_map]
  rfl

/-- The watermark fold is invariant under permutations of the fetched
sequence. -/
theorem populateMax_perm {D : Type} [LinearOrder D] (p : String → D)
    (prev : String) {l l' : List (SObjData × String)} (hperm : l.Perm l') :
    populateMax p prev l = populateMax p prev l' := by
  rw [populateMax_eq_filter, populateMax_eq_filter]
  haveI : RightCommutative
      (fun (a : D × String) (e : SObjData × String) => updateMax p a e.2) :=
    ⟨fun b a1 a2 => updateMax_right_comm p b a1.2 a2.2⟩
  exact (hperm.filter _).foldl_eq _

theorem colDefaults_lookup_cases (cols : List String) (c : String) :
    dictGet? (colDefaults cols) c = none ∨
      dictGet? (colDefaults cols) c = some Value.null := by
  induction cols with
  | nil => left; rfl
  | cons c0 cs ih =>
    simp only [colDefaults, List.map_cons]
    rw [dictGet?_cons]
    by_cases hc : c0 == c
    · right; rw [if_pos hc]
    · rw [if_neg hc]; exact ih

/-- C1 counterexample: an entity whose field list is empty does not move
the recorded watermark although its timestamp is newer; the claim's
timestamp-wise maximum over all fetched entities would be the entity's
timestamp. -/
theorem watermark_skips_fieldless_entity :
    (populate_cache pLen tablesEx "A" fieldlessPayload (fun _ => [])).map
        (fun s => last_modified_date (s.store "file_metadata")) =
      some (Except.ok (some (Value.str "A"))) ∧
    specWatermarkAll pLen "A" fieldlessPayload = "BB" ∧
    ("A" : String) ≠ "BB" := by
  refine ⟨by rfl, by rfl, by decide⟩

/-- C1 amended: the freshness watermark recorded in Cache Metadata after
reconciling a fresh store equals the timestamp-wise maximum — parsed-date
semantics first, raw string as tie-break — of the previous watermark and
the timestamps of the fetched entities that have at least one field
(fieldless entities do not move it), independently of arrival order. -/
theorem populate_watermark_spec {D : Type} [LinearOrder D] (p : String → D)
    (tables : Tables) (prev : String) (l l' : List (SObjData × String))
    (hs : (findTable tables "sobjects").isSome)
    (hf : (findTable tables "fields").isSome)
    (hm : (findTable tables "file_metadata").isSome)
    (hperm : l.Perm l') :
    ∃ s s', populate_cache p tables prev l (fun _ => []) = some s ∧
      populate_cache p tables prev l' (fun _ => []) = some s' ∧
      last_modified_date (s.store "file_metadata") =
        Except.ok (some (Value.str (specWatermarkChanged p prev l))) ∧
      last_modified_date (s'.store "file_metadata") =
        Except.ok (some (Value.str (specWatermarkChanged p prev l))) := by
  rcases populate_cache_some p tables prev l (fun _ => []) hs hf hm
    with ⟨s, h1, hc⟩
  rcases populate_cache_some p tables prev l' (fun _ => []) hs hf hm
    with ⟨s', h1', hc'⟩
  have hfm : "file_metadata" ∈ tables.map (·.1) :=
    (findTable_isSome_iff _ _).mp hm
  have e1 := hc "file_metadata" hfm
  have e1' := hc' "file_metadata" hfm
  rw [writtenRows_populate_fm] at e1 e1'
  refine ⟨s, s', h1, h1', ?_, ?_⟩
  · rw [e1]
    simp only [List.nil_append]
    rw [last_modified_of_meta, specWatermarkChanged_eq]
  · rw [e1']
    simp only [List.nil_append]
    rw [last_modified_of_meta, specWatermarkChanged_eq,
      populateMax_perm p prev hperm]

/-- C1 amended witness: two entities arriving out of order, and their
permutation, both record the amended maximum. -/
theorem populate_watermark_spec_witness :
    ∃ s s', populate_cache pLen tablesEx "A" outOfOrderPayload (fun _ => []) =
        some s ∧
      populate_cache pLen tablesEx "A" outOfOrderPayloadRev (fun _ => []) =
        some s' ∧
      last_modified_date (s.store "file_metadata") =
        Except.ok (some (Value.str
          (specWatermarkChanged pLen "A" outOfOrderPayload))) ∧
      last_modified_date (s'.store "file_metadata") =
        Except.ok (some (Value.str
          (specWatermarkChanged pLen "A" outOfOrderPayload))) :=
  populate_watermark_spec pLen tablesEx "A" outOfOrderPayload
    outOfOrderPayloadRev (by decide) (by decide) (by decide) (by decide)

/-- C2 counterexample: a store seeded with an `Account` row from a prior
cycle; reprocessing `Account` as changed leaves two rows named `Account`
instead of exactly one. -/
theorem reprocess_changed_entity_duplicates :
    (populate_cache pLen tablesEx "A" accountChangedPayload seededAccount).map
        (fun s => countNamed (s.store "sobjects") "Account") = some 2 ∧
    (2 : Nat) ≠ 1 := by
  exact ⟨by rfl, by decide⟩

/-- C2 amended: reconciliation performs an unconditional insert for every
changed entity: afterwards the number of entity rows carrying a name is
the prior count plus the number of processed payloads carrying that name —
an entity already stored from a prior cycle is duplicated, not replaced
(under a uniqueness constraint in the table definition the batched insert
would fail instead; either way no replacement happens). -/
theorem populate_insert_only {D : Type} [LinearOrder D] (p : String → D)
    (tables : Tables) (prev : String) (payloads : List (SObjData × String))
    (store0 : String → List Row) (n : String)
    (hs : (findTable tables "sobjects").isSome)
    (hf : (findTable tables "fields").isSome)
    (hm : (findTable tables "file_metadata").isSome)
    (hnd : ∀ e ∈ payloads, (dictKeys e.1.attrs).Nodup) :
    ∃ s, populate_cache p tables prev payloads store0 = some s ∧
      countNamed (s.store "sobjects") n =
        countNamed (store0 "sobjects") n +
          payloads.countP
            (fun e => dictGet? e.1.attrs "name" == some (Value.str n)) := by
  rcases populate_cache_some p tables prev payloads store0 hs hf hm
    with ⟨s, h1, hc⟩
  have hsm : "sobjects" ∈ tables.map (·.1) := (findTable_isSome_iff _ _).mp hs
  have e1 := hc "sobjects" hsm
  rw [writtenRows_populate_sobjects] at e1
  refine ⟨s, h1, ?_⟩
  rw [e1]
  unfold countNamed
  rw [List.countP_append, List.countP_map]
  congr 1
  apply List.countP_congr
  intro e he
  show (dictGet? (normalizeRow (((findTable tables "sobjects").map (·.2)).getD [])
      (sobjAttrs e.1)) "name" == some (Value.str n)) = true ↔
    (dictGet? e.1.attrs "name" == some (Value.str n)) = true
  have hnds : (dictKeys (sobjAttrs e.1)).Nodup :=
    dictKeys_nodup_dictSet _ _ _ (hnd e he)
  have hname : dictGet? (sobjAttrs e.1) "name" = dictGet? e.1.attrs "name" :=
    dictGet?_dictSet_ne _ _ _ _ (by decide)
  cases hval : dictGet? e.1.attrs "name" with
  | some v =>
    have h2 : dictGet? (sobjAttrs e.1) "name" = some v := by rw [hname, hval]
    rw [normalizeRow_lookup_present _ _ _ _ hnds h2]
  | none =>
    have h2 : dictGet? (sobjAttrs e.1) "name" = none := by rw [hname, hval]
    have h3 : dictGet? (normalizeRow
        (((findTable tables "sobjects").map (·.2)).getD []) (sobjAttrs e.1))
        "name" =
        dictGet? (colDefaults (((findTable tables "sobjects").map (·.2)).getD []))
          "name" := by
      unfold normalizeRow
      rw [dictGet?_dictMerge _ _ _ hnds, h2]
    rw [h3]
    rcases colDefaults_lookup_cases
        (((findTable tables "sobjects").map (·.2)).getD []) "name"
      with h4 | h4 <;> rw [h4] <;> simp

/-- C2 amended witness: the seeded-`Account` instance. -/
theorem populate_insert_only_witness :
    ∃ s, populate_cache pLen tablesEx "A" accountChangedPayload seededAccount =
        some s ∧
      countNamed (s.store "sobjects") "Account" =
        countNamed (seededAccount "sobjects") "Account" +
          accountChangedPayload.countP
            (fun e => dictGet? e.1.attrs "name" == some (Value.str "Account")) :=
  populate_insert_only pLen tablesEx "A" accountChangedPayload seededAccount
    "Account" (by decide) (by decide) (by decide) (by decide)

/-- C9: every entity row written by reconciliation has `actionOverrides`
equal to the empty collection, whatever the remote payload carried for
that attribute. -/
theorem populate_clears_actionOverrides {D : Type} [LinearOrder D]
    (p : String → D) (tables : Tables) (prev : String)
    (payloads : List (SObjData × String))
    (hs : (findTable tables "sobjects").isSome)
    (hf : (findTable tables "fields").isSome)
    (hm : (findTable tables "file_metadata").isSome)
    (hnd : ∀ e ∈ payloads, (dictKeys e.1.attrs).Nodup) :
    ∃ s, populate_cache p tables prev payloads (fun _ => []) = some s ∧
      ∀ r ∈ s.store "sobjects",
        dictGet? r "actionOverrides" = some Value.emptyList := by
  rcases populate_cache_some p tables prev payloads (fun _ => []) hs hf hm
    with ⟨s, h1, hc⟩
  have hsm : "sobjects" ∈ tables.map (·.1) := (findTable_isSome_iff _ _).mp hs
  have e1 := hc "sobjects" hsm
  rw [writtenRows_populate_sobjects] at e1
  refine ⟨s, h1, ?_⟩
  intro r hr
  rw [e1] at hr
  simp only [List.nil_append] at hr
  rcases List.mem_map.mp hr with ⟨e, he, hre⟩
  rw [← hre]
  exact normalizeRow_lookup_present _ _ _ _
    (dictKeys_nodup_dictSet _ _ _ (hnd e he))
    (dictGet?_dictSet_self _ _ _)

/-- C9 witness: a payload whose remote dict carries `actionOverrides`
data; the stored row still holds the empty collection. -/
theorem populate_clears_actionOverrides_witness :
    ∃ s, populate_cache pLen tablesEx "A" overridesPayload (fun _ => []) =
        some s ∧
      ∀ r ∈ s.store "sobjects",
        dictGet? r "actionOverrides" = some Value.emptyList :=
  populate_clears_actionOverrides pLen tablesEx "A" overridesPayload
    (by decide) (by decide) (by decide) (by decide)

/-- C6: on a store seeded from a prior snapshot that already holds the two
Cache Metadata rows, a refresh cycle (here with zero changed entities)
writes a second `Last-Modified` and `FormatVersion` row; two rows then
carry the `Last-Modified` key and the subsequent single-row watermark
lookup raises `MultipleResultsFound`. -/
theorem seeded_cycle_duplicates_metadata_keys :
    (populate_cache pLen tablesEx "AAAA" ([] : List (SObjData × String))
        seededWithMetadata).map
        (fun s => ((lastModifiedRows (s.store "file_metadata")).length,
          last_modified_date (s.store "file_metadata"))) =
      some (2, Except.error LookupErr.multipleResults) := by
  rfl

/-- C5 counterexample: on a decompression failure nothing has been
registered in `cleanups_on_failure`, so the stale artifact is not deleted
(and the truncated scratch file survives), contrary to the claim's
"deletes the stale artifact and any scratch files created so far". -/
theorem decompress_failure_deletes_nothing :
    loadFailState LoadFailure.decompress [9, 9] = (some [9, 9], some []) ∧
    (some [9, 9] : Option (List Nat)) ≠ none := by
  exact ⟨rfl, by decide⟩

/-- C5 amended: a load failure after decompression (open error, liveness
failure) deletes the stale artifact and the scratch file; a decompression
failure deletes nothing at that point — the stale artifact survives until
the rebuild's final save overwrites it. In every failure mode the manager
falls back to a fresh empty store, completes the rebuild producing a fresh
artifact, and the load failure is not propagated. -/
theorem load_failure_recovery {D : Type} [LinearOrder D] (p : String → D)
    (tables : Tables) (gz : List Nat → List Nat)
    (ser : List (String × List Row) → List Nat)
    (payloads : List (SObjData × String)) (f : LoadFailure) (bytes : List Nat)
    (hs : (findTable tables "sobjects").isSome)
    (hf : (findTable tables "fields").isSome)
    (hm : (findTable tables "file_metadata").isSome) :
    (get_org_schema_after_load_failure p tables gz ser payloads f bytes).1 =
      loadFailState f bytes ∧
    (f = LoadFailure.decompress →
      loadFailState f bytes = (some bytes, some [])) ∧
    ((f = LoadFailure.openStore ∨ f = LoadFailure.liveness) →
      loadFailState f bytes = (none, none)) ∧
    ∃ s, populate_cache p tables y2k payloads (fun _ => []) = some s ∧
      (get_org_schema_after_load_failure p tables gz ser payloads f bytes).2 =
        some { artifact := gz (ser (tables.map (fun t => (t.1, s.store t.1))))
               store := s.store
               from_cache := false } := by
  rcases populate_cache_some p tables y2k payloads (fun _ => []) hs hf hm
    with ⟨s, h1, _⟩
  refine ⟨rfl, ?_, ?_, s, h1, ?_⟩
  · intro h; rw [h]; rfl
  · rintro (h | h) <;> (rw [h]; rfl)
  · show (populate_cache p tables y2k payloads (fun _ => [])).map _ = _
    rw [h1]
    rfl

/-- C5 amended witness: the decompression-failure instance on the example
tables. -/
theorem load_failure_recovery_witness :
    (get_org_schema_after_load_failure pLen tablesEx id
        (fun l => [l.length]) ([] : List (SObjData × String))
        LoadFailure.decompress [9]).1 =
      loadFailState LoadFailure.decompress [9] ∧
    (LoadFailure.decompress = LoadFailure.decompress →
      loadFailState LoadFailure.decompress [9] = (some [9], some [])) ∧
    ((LoadFailure.decompress = LoadFailure.openStore ∨
        LoadFailure.decompress = LoadFailure.liveness) →
      loadFailState LoadFailure.decompress [9] = (none, none)) ∧
    ∃ s, populate_cache pLen tablesEx y2k ([] : List (SObjData × String))
        (fun _ => []) = some s ∧
      (get_org_schema_after_load_failure pLen tablesEx id
          (fun l => [l.length]) ([] : List (SObjData × String))
          LoadFailure.decompress [9]).2 =
        some { artifact := id [(tablesEx.map
                 (fun t => (t.1, s.store t.1))).length]
               store := s.store
               from_cache := false } :=
  load_failure_recovery pLen tablesEx id (fun l => [l.length]) []
    LoadFailure.decompress [9] (by decide) (by decide) (by decide)

end OrgSchema
